import Mathlib

/-!
Verification of the Grad-CAM region-extraction pipeline, the duplicate
detector and the mammogram validator of the BreastCancerDetect repository.

The Python source (backend/grad_cam.py, backend/duplicate_detector.py,
backend/mammogram_validator.py) is shallowly embedded: 2D float arrays
become rational-valued grids with explicit dimensions, numpy operations
become folds over `List.range`, and Python floats are modelled by exact
rational arithmetic.
-/

namespace BreastCancer

/-- A 2D array (image or heatmap): `h` rows, `w` columns, rational values.
Mirrors a numpy 2D float array. -/
structure Grid where
  h : Nat
  w : Nat
  val : Nat → Nat → ℚ

/-- Row-major list of all coordinates (i, j) of a grid of size h x w. -/
def gridCoords (h w : Nat) : List (Nat × Nat) :=
  (List.range h).flatMap (fun i => (List.range w).map (fun j => (i, j)))

/-- Membership in `gridCoords` is exactly in-bounds. -/
theorem mem_gridCoords {h w : Nat} {p : Nat × Nat} :
    p ∈ gridCoords h w ↔ p.1 < h ∧ p.2 < w := by
  cases p with
  | mk i j =>
    simp only [gridCoords, List.mem_flatMap, List.mem_map, List.mem_range]
    constructor
    · rintro ⟨a, ha, b, hb, heq⟩
      cases heq
      exact ⟨ha, hb⟩
    · rintro ⟨hi, hj⟩
      exact ⟨i, hi, j, hj, rfl⟩

/-- Thresholding of the heatmap in grad_cam.detect_bounding_boxes, line 239:
`binary_mask = (heatmap > threshold)`. -/
def thresholdMask (heatmap : Grid) (threshold : ℚ) : Nat → Nat → Bool :=
  fun i j => decide (heatmap.val i j > threshold)

/-- Claim C8: raising the threshold never adds activated area: for the same
heatmap and thresholds t1 <= t2, every pixel marked high-activation at t2 is
also marked at t1. -/
theorem thresholdMask_antitone (heatmap : Grid) (t1 t2 : ℚ) (ht : t1 ≤ t2)
    (i j : Nat) (h2 : thresholdMask heatmap t2 i j = true) :
    thresholdMask heatmap t1 i j = true := by
  simp only [thresholdMask, decide_eq_true_eq] at h2 ⊢
  exact lt_of_le_of_lt ht h2

/-- Witness for C8 at a concrete heatmap, thresholds 1/2 <= 3/4 and pixel
(0, 0). -/
theorem thresholdMask_antitone_witness :
    (1 : ℚ) / 2 ≤ 3 / 4 ∧
      thresholdMask ⟨1, 1, fun _ _ => 9 / 10⟩ (1 / 2) 0 0 = true :=
  ⟨by norm_num,
    thresholdMask_antitone ⟨1, 1, fun _ _ => 9 / 10⟩ (1 / 2) (3 / 4)
      (by norm_num) 0 0 (by with_unfolding_all decide)⟩

/-! ## Connected-component labeling

`scipy.ndimage.label`, called at grad_cam.py line 242, labels the 4-connected
components of the binary mask, numbering them in raster order of their first
pixel.  We compute the same components by a flood fill over the raster-ordered
list of activated pixels. -/

/-- Four-adjacency (4-connectivity) of two pixels (the default structuring element of
scipy.ndimage.label). -/
def pixelAdjacent (p q : Nat × Nat) : Bool :=
  (p.1 = q.1 && (p.2 + 1 = q.2 || q.2 + 1 = p.2)) ||
  (p.2 = q.2 && (p.1 + 1 = q.1 || q.1 + 1 = p.1))

/-- One flood-fill step: adjoin every pixel of the mask adjacent to the
current component. -/
def growComponent (pixels : List (Nat × Nat)) (comp : List (Nat × Nat)) :
    List (Nat × Nat) :=
  comp ++ pixels.filter (fun p => !comp.contains p && comp.any (pixelAdjacent p))

/-- The connected component of `seed` inside `pixels`: iterate the flood-fill
step as many times as there are pixels, which reaches the fixed point. -/
def componentOf (pixels : List (Nat × Nat)) (seed : Nat × Nat) :
    List (Nat × Nat) :=
  (growComponent pixels)^[pixels.length] [seed]

/-- Split a raster-ordered pixel list into its 4-connected components, in
raster order of their seed pixels, as ndimage.label numbers them. The fuel
is an upper bound on the number of components. -/
def componentsAux : Nat → List (Nat × Nat) → List (List (Nat × Nat))
  | 0, _ => []
  | _, [] => []
  | fuel + 1, p :: rest =>
    let c := componentOf (p :: rest) p
    c :: componentsAux fuel ((p :: rest).filter (fun q => !c.contains q))

/-- The 4-connected components of a raster-ordered pixel list. -/
def components (pixels : List (Nat × Nat)) : List (List (Nat × Nat)) :=
  componentsAux pixels.length pixels

theorem subset_growComponent (pixels comp : List (Nat × Nat)) :
    comp ⊆ growComponent pixels comp := by
  intro x hx
  exact List.mem_append.mpr (Or.inl hx)

theorem growComponent_subset (pixels comp : List (Nat × Nat))
    (h : ∀ x ∈ comp, x ∈ pixels) :
    ∀ x ∈ growComponent pixels comp, x ∈ pixels := by
  intro x hx
  rcases List.mem_append.mp hx with h1 | h2
  · exact h x h1
  · exact (List.mem_filter.mp h2).1

/-- The seed belongs to its component. -/
theorem seed_mem_componentOf (pixels : List (Nat × Nat)) (seed : Nat × Nat) :
    seed ∈ componentOf pixels seed := by
  have key : ∀ n comp, comp ⊆ (growComponent pixels)^[n] comp := by
    intro n
    induction n with
    | zero => intro comp; simp [Function.iterate_zero]
    | succ n ih =>
      intro comp
      rw [Function.iterate_succ_apply]
      exact fun x hx => ih _ (subset_growComponent pixels comp hx)
  exact key pixels.length [seed] (List.mem_singleton.mpr rfl)

/-- Every pixel of a component lies in the mask the seed was drawn from. -/
theorem componentOf_subset (pixels : List (Nat × Nat)) (seed : Nat × Nat)
    (hseed : seed ∈ pixels) :
    ∀ x ∈ componentOf pixels seed, x ∈ pixels := by
  have key : ∀ n comp, (∀ x ∈ comp, x ∈ pixels) →
      ∀ x ∈ (growComponent pixels)^[n] comp, x ∈ pixels := by
    intro n
    induction n with
    | zero => intro comp h; simpa [Function.iterate_zero] using h
    | succ n ih =>
      intro comp h
      rw [Function.iterate_succ_apply]
      exact ih _ (growComponent_subset pixels comp h)
  refine key pixels.length [seed] ?_
  intro x hx
  rwa [List.mem_singleton.mp hx]

/-- Every component produced by `componentsAux` is nonempty and its pixels
come from the input list. -/
theorem componentsAux_sound :
    ∀ (fuel : Nat) (l : List (Nat × Nat)) (c : List (Nat × Nat)),
      c ∈ componentsAux fuel l → c ≠ [] ∧ ∀ x ∈ c, x ∈ l := by
  intro fuel
  induction fuel with
  | zero => intro l c hc; simp [componentsAux] at hc
  | succ fuel ih =>
    intro l c hc
    cases l with
    | nil => simp [componentsAux] at hc
    | cons p rest =>
      simp only [componentsAux, List.mem_cons] at hc
      rcases hc with rfl | hc
      · refine ⟨?_, componentOf_subset (p :: rest) p (List.mem_cons_self p rest)⟩
        intro hnil
        have := seed_mem_componentOf (p :: rest) p
        rw [hnil] at this
        exact (List.not_mem_nil p) this
      · obtain ⟨hne, hsub⟩ := ih _ c hc
        refine ⟨hne, fun x hx => ?_⟩
        exact (List.mem_filter.mp (hsub x hx)).1

/-- Components of a pixel list are nonempty and consist of its pixels. -/
theorem components_sound (pixels : List (Nat × Nat)) (c : List (Nat × Nat))
    (hc : c ∈ components pixels) : c ≠ [] ∧ ∀ x ∈ c, x ∈ pixels :=
  componentsAux_sound pixels.length pixels c hc

/-! ## Folded minima and maxima (numpy .min() / .max() on nonempty arrays) -/

theorem foldl_min_le_start (l : List Nat) (a : Nat) : l.foldl min a ≤ a := by
  induction l generalizing a with
  | nil => simp
  | cons x xs ih =>
    calc (x :: xs).foldl min a = xs.foldl min (min a x) := rfl
    _ ≤ min a x := ih (min a x)
    _ ≤ a := min_le_left a x

theorem foldl_min_le (l : List Nat) (a : Nat) :
    ∀ x ∈ l, l.foldl min a ≤ x := by
  induction l generalizing a with
  | nil => intro x hx; simp at hx
  | cons y ys ih =>
    intro x hx
    rcases List.mem_cons.mp hx with rfl | hx
    · calc (x :: ys).foldl min a = ys.foldl min (min a x) := rfl
      _ ≤ min a x := foldl_min_le_start ys (min a x)
      _ ≤ x := min_le_right a x
    · exact ih (min a y) x hx

theorem start_le_foldl_max (l : List Nat) (a : Nat) : a ≤ l.foldl max a := by
  induction l generalizing a with
  | nil => simp
  | cons x xs ih =>
    calc a ≤ max a x := le_max_left a x
    _ ≤ xs.foldl max (max a x) := ih (max a x)
    _ = (x :: xs).foldl max a := rfl

theorem le_foldl_max (l : List Nat) (a : Nat) :
    ∀ x ∈ l, x ≤ l.foldl max a := by
  induction l generalizing a with
  | nil => intro x hx; simp at hx
  | cons y ys ih =>
    intro x hx
    rcases List.mem_cons.mp hx with rfl | hx
    · calc x ≤ max a x := le_max_right a x
      _ ≤ ys.foldl max (max a x) := start_le_foldl_max ys (max a x)
      _ = (x :: ys).foldl max a := rfl
    · exact ih (max a y) x hx

theorem foldl_min_mem (l : List Nat) (a : Nat) : l.foldl min a ∈ a :: l := by
  induction l generalizing a with
  | nil => simp
  | cons x xs ih =>
    have h := ih (min a x)
    rcases List.mem_cons.mp h with heq | hmem
    · show xs.foldl min (min a x) ∈ a :: x :: xs
      rw [heq]
      rcases min_choice a x with h1 | h1 <;> rw [h1] <;> simp
    · exact List.mem_cons.mpr (Or.inr (List.mem_cons.mpr (Or.inr hmem)))

theorem foldl_max_mem (l : List Nat) (a : Nat) : l.foldl max a ∈ a :: l := by
  induction l generalizing a with
  | nil => simp
  | cons x xs ih =>
    have h := ih (max a x)
    rcases List.mem_cons.mp h with heq | hmem
    · show xs.foldl max (max a x) ∈ a :: x :: xs
      rw [heq]
      rcases max_choice a x with h1 | h1 <;> rw [h1] <;> simp
    · exact List.mem_cons.mpr (Or.inr (List.mem_cons.mpr (Or.inr hmem)))

/-! ## detect_bounding_boxes (grad_cam.py lines 213-274) -/

/-- A boolean 2D array, e.g. a tissue mask at image resolution. -/
structure BoolGrid where
  h : Nat
  w : Nat
  val : Nat → Nat → Bool

/-- Nearest-neighbour resize (PIL Image.NEAREST) of a boolean mask to a
target resolution, modelled by center sampling: destination pixel (i, j)
reads the source pixel containing the center of its preimage. The
`* 255 ... > 127` round trip of the source is the identity on booleans. -/
def resizeNearest (src : BoolGrid) (dstH dstW : Nat) : Nat → Nat → Bool :=
  fun i j => src.val ((2 * i + 1) * src.h / (2 * dstH)) ((2 * j + 1) * src.w / (2 * dstW))

/-- The heatmap actually used by detect_bounding_boxes (lines 229-236): when a
tissue mask is given it is resized to the heatmap resolution and the heatmap
is multiplied by the boolean mask, which zeroes background values. -/
def effectiveHeatmap (heatmap : Grid) (tissue_mask : Option BoolGrid) :
    Nat → Nat → ℚ :=
  match tissue_mask with
  | none => heatmap.val
  | some m => fun i j =>
      if resizeNearest m heatmap.h heatmap.w i j then heatmap.val i j else 0

/-- Raster-ordered coordinates of the high-activation pixels: the support of
`binary_mask = (heatmap > threshold)` at line 239. -/
def activatedPixels (heatmap : Grid) (threshold : ℚ)
    (tissue_mask : Option BoolGrid) : List (Nat × Nat) :=
  (gridCoords heatmap.h heatmap.w).filter
    (fun p => decide (effectiveHeatmap heatmap tissue_mask p.1 p.2 > threshold))

/-- A detected region: scaled bounding box corners and mean activation,
the tuple (x1, y1, x2, y2, confidence) of the Python source. -/
structure BBox where
  x1 : Nat
  y1 : Nat
  x2 : Nat
  y2 : Nat
  confidence : ℚ
deriving DecidableEq

/-- Shallow embedding of grad_cam.detect_bounding_boxes. Pixel coordinates
are nonnegative integers, Python float arithmetic is modelled exactly over
the rationals, and `int()` of a nonnegative value is the floor. Components
are visited in label order (raster order of their seeds), small components
are skipped, the bounding box of each surviving component is scaled to the
original image size and its confidence is the mean activation over the
component. -/
def detect_bounding_boxes (heatmap : Grid) (original_image_size : Nat × Nat)
    (threshold : ℚ) (min_area : ℚ) (tissue_mask : Option BoolGrid) :
    List BBox :=
  let hval := effectiveHeatmap heatmap tissue_mask
  let scale_x : ℚ := (original_image_size.1 : ℚ) / heatmap.w
  let scale_y : ℚ := (original_image_size.2 : ℚ) / heatmap.h
  (components (activatedPixels heatmap threshold tissue_mask)).filterMap
    (fun comp =>
      if (comp.length : ℚ) < min_area / (scale_x * scale_y) then none
      else
        match comp with
        | [] => none
        | c :: cs =>
          let y_min := (cs.map Prod.fst).foldl min c.1
          let y_max := (cs.map Prod.fst).foldl max c.1
          let x_min := (cs.map Prod.snd).foldl min c.2
          let x_max := (cs.map Prod.snd).foldl max c.2
          some ⟨⌊(x_min : ℚ) * scale_x⌋₊, ⌊(y_min : ℚ) * scale_y⌋₊,
                ⌊(x_max : ℚ) * scale_x⌋₊, ⌊(y_max : ℚ) * scale_y⌋₊,
                ((c :: cs).map (fun p => hval p.1 p.2)).sum / ((c :: cs).length : ℚ)⟩)

/-- Scaling a pair lo <= hi < dim of pixel indices by the rational factor
n / dim and flooring keeps them ordered and strictly below n. -/
theorem scaled_coord_bounds {lo hi dim n : Nat} (hle : lo ≤ hi) (hlt : hi < dim)
    (hdim : 0 < dim) (hn : 0 < n) :
    ⌊(lo : ℚ) * ((n : ℚ) / (dim : ℚ))⌋₊ ≤ ⌊(hi : ℚ) * ((n : ℚ) / (dim : ℚ))⌋₊ ∧
      ⌊(hi : ℚ) * ((n : ℚ) / (dim : ℚ))⌋₊ < n := by
  have hscale : (0 : ℚ) < (n : ℚ) / (dim : ℚ) :=
    div_pos (by exact_mod_cast hn) (by exact_mod_cast hdim)
  constructor
  · exact Nat.floor_mono (mul_le_mul_of_nonneg_right (by exact_mod_cast hle) hscale.le)
  · have hr : (0 : ℚ) ≤ (hi : ℚ) * ((n : ℚ) / (dim : ℚ)) :=
      mul_nonneg (Nat.cast_nonneg hi) hscale.le
    rw [Nat.floor_lt hr]
    calc (hi : ℚ) * ((n : ℚ) / (dim : ℚ))
        < (dim : ℚ) * ((n : ℚ) / (dim : ℚ)) :=
          mul_lt_mul_of_pos_right (by exact_mod_cast hlt) hscale
    _ = (n : ℚ) := by
          rw [mul_comm]
          exact div_mul_cancel₀ (n : ℚ) (by exact_mod_cast hdim.ne')

/-- Claim C3: for every heatmap of positive dimensions and every original
image size with w > 0 and h > 0, every bounding box returned by
detect_bounding_boxes satisfies 0 <= x1 <= x2 < w and 0 <= y1 <= y2 < h
(the lower bounds are inherent since coordinates are naturals): region
coordinates lie within the image bounds. -/
theorem detect_bounding_boxes_in_bounds (heatmap : Grid) (w h : Nat)
    (threshold min_area : ℚ) (tissue_mask : Option BoolGrid)
    (hhw : 0 < heatmap.w) (hhh : 0 < heatmap.h) (hw : 0 < w) (hh : 0 < h)
    (b : BBox)
    (hb : b ∈ detect_bounding_boxes heatmap (w, h) threshold min_area tissue_mask) :
    b.x1 ≤ b.x2 ∧ b.x2 < w ∧ b.y1 ≤ b.y2 ∧ b.y2 < h := by
  obtain ⟨comp, hcomp, hsome⟩ := List.mem_filterMap.mp hb
  by_cases hsmall :
      (comp.length : ℚ) < min_area / (((w : ℚ) / heatmap.w) * ((h : ℚ) / heatmap.h))
  · rw [if_pos hsmall] at hsome
    exact absurd hsome (by simp)
  · rw [if_neg hsmall] at hsome
    obtain ⟨-, hsub⟩ := components_sound _ comp hcomp
    cases comp with
    | nil => exact absurd hsome (by simp)
    | cons c cs =>
      have hbounds : ∀ x ∈ c :: cs, x.1 < heatmap.h ∧ x.2 < heatmap.w := by
        intro x hx
        have := hsub x hx
        have := (List.mem_filter.mp this).1
        exact mem_gridCoords.mp this
      obtain rfl := Option.some_injective _ hsome
      simp only
      -- x axis
      have hxmin_le : (cs.map Prod.snd).foldl min c.2 ≤ (cs.map Prod.snd).foldl max c.2 :=
        le_trans (foldl_min_le_start _ _) (start_le_foldl_max _ _)
      have hxmax_lt : (cs.map Prod.snd).foldl max c.2 < heatmap.w := by
        rcases List.mem_cons.mp (foldl_max_mem (cs.map Prod.snd) c.2) with heq | hmem
        · rw [heq]; exact (hbounds c (List.mem_cons_self c cs)).2
        · obtain ⟨p, hp, hpx⟩ := List.mem_map.mp hmem
          rw [← hpx]
          exact (hbounds p (List.mem_cons.mpr (Or.inr hp))).2
      have hymin_le : (cs.map Prod.fst).foldl min c.1 ≤ (cs.map Prod.fst).foldl max c.1 :=
        le_trans (foldl_min_le_start _ _) (start_le_foldl_max _ _)
      have hymax_lt : (cs.map Prod.fst).foldl max c.1 < heatmap.h := by
        rcases List.mem_cons.mp (foldl_max_mem (cs.map Prod.fst) c.1) with heq | hmem
        · rw [heq]; exact (hbounds c (List.mem_cons_self c cs)).1
        · obtain ⟨p, hp, hpy⟩ := List.mem_map.mp hmem
          rw [← hpy]
          exact (hbounds p (List.mem_cons.mpr (Or.inr hp))).1
      obtain ⟨hx12, hx2⟩ := scaled_coord_bounds hxmin_le hxmax_lt hhw hw
      obtain ⟨hy12, hy2⟩ := scaled_coord_bounds hymin_le hymax_lt hhh hh
      exact ⟨hx12, hx2, hy12, hy2⟩

/-- Witness for C3 on a 1x1 heatmap of value 1 scaled to a 2x3 image:
the single returned box is within bounds. -/
theorem detect_bounding_boxes_in_bounds_witness :
    (⟨0, 0, 0, 0, 1⟩ : BBox).x1 ≤ (⟨0, 0, 0, 0, 1⟩ : BBox).x2 ∧
      (⟨0, 0, 0, 0, 1⟩ : BBox).x2 < 2 ∧
      (⟨0, 0, 0, 0, 1⟩ : BBox).y1 ≤ (⟨0, 0, 0, 0, 1⟩ : BBox).y2 ∧
      (⟨0, 0, 0, 0, 1⟩ : BBox).y2 < 3 :=
  detect_bounding_boxes_in_bounds ⟨1, 1, fun _ _ => 1⟩ 2 3 (1 / 2) 0 none
    (by decide) (by decide) (by decide) (by decide) ⟨0, 0, 0, 0, 1⟩
    (by with_unfolding_all decide)

/-- Values of the effective (tissue-masked) heatmap stay in [0,1] when the
heatmap values do: masking only replaces values by 0. -/
theorem effectiveHeatmap_mem_unit (heatmap : Grid) (tissue_mask : Option BoolGrid)
    (hv : ∀ i j, 0 ≤ heatmap.val i j ∧ heatmap.val i j ≤ 1) (i j : Nat) :
    0 ≤ effectiveHeatmap heatmap tissue_mask i j ∧
      effectiveHeatmap heatmap tissue_mask i j ≤ 1 := by
  cases tissue_mask with
  | none => exact hv i j
  | some m =>
    simp only [effectiveHeatmap]
    by_cases hm : resizeNearest m heatmap.h heatmap.w i j
    · rw [if_pos hm]; exact hv i j
    · rw [if_neg hm]; exact ⟨le_refl 0, zero_le_one⟩

/-- Claim C4: for every heatmap whose values all lie in [0,1], the confidence
of every bounding box returned by detect_bounding_boxes is the mean effective
heatmap activation over the connected component of that box of activated pixels,
and that confidence lies in [0,1]. -/
theorem detect_bounding_boxes_confidence (heatmap : Grid) (size : Nat × Nat)
    (threshold min_area : ℚ) (tissue_mask : Option BoolGrid)
    (hv : ∀ i j, 0 ≤ heatmap.val i j ∧ heatmap.val i j ≤ 1)
    (b : BBox)
    (hb : b ∈ detect_bounding_boxes heatmap size threshold min_area tissue_mask) :
    ∃ comp ∈ components (activatedPixels heatmap threshold tissue_mask),
      b.confidence =
          (comp.map (fun p => effectiveHeatmap heatmap tissue_mask p.1 p.2)).sum /
            (comp.length : ℚ) ∧
        0 ≤ b.confidence ∧ b.confidence ≤ 1 := by
  obtain ⟨comp, hcomp, hsome⟩ := List.mem_filterMap.mp hb
  by_cases hsmall :
      (comp.length : ℚ) <
        min_area / (((size.1 : ℚ) / heatmap.w) * ((size.2 : ℚ) / heatmap.h))
  · rw [if_pos hsmall] at hsome
    exact absurd hsome (by simp)
  · rw [if_neg hsmall] at hsome
    cases comp with
    | nil => exact absurd hsome (by simp)
    | cons c cs =>
      refine ⟨c :: cs, hcomp, ?_⟩
      obtain rfl := Option.some_injective _ hsome
      have hvals : ∀ q ∈ (c :: cs).map
          (fun p => effectiveHeatmap heatmap tissue_mask p.1 p.2),
          0 ≤ q ∧ q ≤ 1 := by
        intro q hq
        obtain ⟨p, -, hpq⟩ := List.mem_map.mp hq
        rw [← hpq]
        exact effectiveHeatmap_mem_unit heatmap tissue_mask hv p.1 p.2
      have hlen : (0 : ℚ) < ((c :: cs).length : ℚ) := by
        exact_mod_cast Nat.succ_pos cs.length
      have hsum0 : 0 ≤ ((c :: cs).map
          (fun p => effectiveHeatmap heatmap tissue_mask p.1 p.2)).sum :=
        List.sum_nonneg (fun q hq => (hvals q hq).1)
      have hsum1 : ((c :: cs).map
          (fun p => effectiveHeatmap heatmap tissue_mask p.1 p.2)).sum ≤
            ((c :: cs).length : ℚ) := by
        have := List.sum_le_card_nsmul
          ((c :: cs).map (fun p => effectiveHeatmap heatmap tissue_mask p.1 p.2)) 1
          (fun q hq => (hvals q hq).2)
        rw [List.length_map] at this
        simpa [nsmul_eq_mul] using this
      refine ⟨rfl, div_nonneg hsum0 hlen.le, ?_⟩
      rw [div_le_one hlen]
      exact hsum1

/-- Witness for C4 on a 1x1 heatmap of value 1: the single returned box has
confidence 1, the mean over its one-pixel component. -/
theorem detect_bounding_boxes_confidence_witness :
    ∃ comp ∈ components (activatedPixels ⟨1, 1, fun _ _ => 1⟩ (1 / 2) none),
      (⟨0, 0, 0, 0, 1⟩ : BBox).confidence =
          (comp.map (fun p => effectiveHeatmap ⟨1, 1, fun _ _ => 1⟩ none p.1 p.2)).sum /
            (comp.length : ℚ) ∧
        0 ≤ (⟨0, 0, 0, 0, 1⟩ : BBox).confidence ∧
          (⟨0, 0, 0, 0, 1⟩ : BBox).confidence ≤ 1 :=
  detect_bounding_boxes_confidence ⟨1, 1, fun _ _ => 1⟩ (2, 3) (1 / 2) 0 none
    (fun _ _ => ⟨zero_le_one, le_refl 1⟩) ⟨0, 0, 0, 0, 1⟩
    (by with_unfolding_all decide)

/-! ## Images and create_tissue_mask (grad_cam.py lines 81-99) -/

/-- A numpy image array: 2D grayscale or 3-channel color. -/
inductive ImageArray
  | gray (g : Grid)
  | color (h w : Nat) (r g b : Nat → Nat → ℚ)

def imageH : ImageArray → Nat
  | .gray g => g.h
  | .color h _ _ _ _ => h

def imageW : ImageArray → Nat
  | .gray g => g.w
  | .color _ w _ _ _ => w

/-- The grayscale view `np.mean(img_array, axis=2)` for 3D arrays, the array
itself for 2D. -/
def grayValue : ImageArray → Nat → Nat → ℚ
  | .gray g => g.val
  | .color _ _ r g b => fun i j => (r i j + g i j + b i j) / 3

/-- grad_cam.create_tissue_mask: the grayscale image binarized pointwise at
the intensity threshold (default 15); True means tissue. -/
def create_tissue_mask (img : ImageArray) (threshold : ℚ) : BoolGrid :=
  ⟨imageH img, imageW img, fun i j => decide (grayValue img i j > threshold)⟩

/-! ## The region filtering, sorting and capping stage of
create_gradcam_visualization (grad_cam.py lines 960-986) -/

/-- The background filter of lines 962-983: clamp the box to the image,
drop empty boxes, drop boxes whose center is off tissue, and drop boxes
whose tissue fraction is below 0.4 (the float literal 0.4, modelled exactly
as 2/5). Coordinates are naturals, so the max(0, .) clamps of the source
are kept but never change the value. -/
def filterBackgroundBoxes (tissue_mask : BoolGrid) (img_h img_w : Nat)
    (boxes : List BBox) : List BBox :=
  boxes.filter (fun b =>
    let x1s := max 0 b.x1
    let y1s := max 0 b.y1
    let x2s := min (img_w - 1) b.x2
    let y2s := min (img_h - 1) b.y2
    if x2s ≤ x1s || y2s ≤ y1s then false
    else
      let cx := (x1s + x2s) / 2
      let cy := (y1s + y2s) / 2
      if !tissue_mask.val cy cx then false
      else
        -- box_tissue = tissue_mask[y1s:y2s, x1s:x2s]; its mean is the
        -- fraction of tissue pixels
        let total := (y2s - y1s) * (x2s - x1s)
        let cnt := ((gridCoords (y2s - y1s) (x2s - x1s)).filter
          (fun p => tissue_mask.val (y1s + p.1) (x1s + p.2))).length
        if total > 0 && decide ((cnt : ℚ) / (total : ℚ) < 2 / 5) then false
        else true)

/-- Stable insertion into a list sorted by descending confidence: the new
box goes before the first strictly less confident box and before no box of
greater or equal confidence. -/
def insertByConfDesc (b : BBox) : List BBox → List BBox
  | [] => [b]
  | c :: cs =>
    if c.confidence ≤ b.confidence then b :: c :: cs
    else c :: insertByConfDesc b cs

/-- Python `sorted(boxes, key=lambda b: b[4], reverse=True)`: a stable sort
by descending confidence. -/
def sortByConfDesc : List BBox → List BBox
  | [] => []
  | b :: bs => insertByConfDesc b (sortByConfDesc bs)

/-- The filtered boxes of create_gradcam_visualization before sorting:
tissue mask from the original image at threshold 15, detection at heatmap
threshold 0.5 with min_area 50, then the background filter. -/
def filteredBoxes (original_image : ImageArray) (heatmap : Grid) : List BBox :=
  let tissue_mask := create_tissue_mask original_image 15
  filterBackgroundBoxes tissue_mask (imageH original_image) (imageW original_image)
    (detect_bounding_boxes heatmap (imageW original_image, imageH original_image)
      (1 / 2) 50 (some tissue_mask))

/-- Line 986: `filtered_boxes = sorted(filtered_boxes, key=lambda b: b[4],
reverse=True)[:10]` — the regions retained by create_gradcam_visualization. -/
def retainedRegions (original_image : ImageArray) (heatmap : Grid) : List BBox :=
  (sortByConfDesc (filteredBoxes original_image heatmap)).take 10

theorem mem_insertByConfDesc {x b : BBox} {l : List BBox}
    (hx : x ∈ insertByConfDesc b l) : x = b ∨ x ∈ l := by
  induction l with
  | nil => simpa [insertByConfDesc] using hx
  | cons c cs ih =>
    simp only [insertByConfDesc] at hx
    by_cases hc : c.confidence ≤ b.confidence
    · rw [if_pos hc] at hx
      rcases List.mem_cons.mp hx with rfl | hx
      · exact Or.inl rfl
      · exact Or.inr hx
    · rw [if_neg hc] at hx
      rcases List.mem_cons.mp hx with rfl | hx
      · exact Or.inr (List.mem_cons_self _ _)
      · rcases ih hx with rfl | hmem
        · exact Or.inl rfl
        · exact Or.inr (List.mem_cons.mpr (Or.inr hmem))

theorem pairwise_insertByConfDesc (b : BBox) (l : List BBox)
    (h : l.Pairwise (fun a c => c.confidence ≤ a.confidence)) :
    (insertByConfDesc b l).Pairwise (fun a c => c.confidence ≤ a.confidence) := by
  induction l with
  | nil => simp [insertByConfDesc]
  | cons c cs ih =>
    rw [List.pairwise_cons] at h
    obtain ⟨hc, hcs⟩ := h
    simp only [insertByConfDesc]
    by_cases hle : c.confidence ≤ b.confidence
    · rw [if_pos hle]
      refine List.pairwise_cons.mpr ⟨?_, List.pairwise_cons.mpr ⟨hc, hcs⟩⟩
      intro x hx
      rcases List.mem_cons.mp hx with rfl | hx
      · exact hle
      · exact le_trans (hc x hx) hle
    · rw [if_neg hle]
      refine List.pairwise_cons.mpr ⟨?_, ih hcs⟩
      intro x hx
      rcases mem_insertByConfDesc hx with rfl | hx
      · exact (lt_of_not_le hle).le
      · exact hc x hx

theorem sortByConfDesc_pairwise (l : List BBox) :
    (sortByConfDesc l).Pairwise (fun a c => c.confidence ≤ a.confidence) := by
  induction l with
  | nil => simp [sortByConfDesc]
  | cons b bs ih => exact pairwise_insertByConfDesc b (sortByConfDesc bs) ih

/-- Claim C2: for every input image and heatmap, at most 10 regions are
retained (the cap of line 986, inside the 5-10 range the spec allows) and
they are sorted in descending order of confidence. -/
theorem retainedRegions_capped_and_sorted (original_image : ImageArray)
    (heatmap : Grid) :
    (retainedRegions original_image heatmap).length ≤ 10 ∧
      (retainedRegions original_image heatmap).Pairwise
        (fun a c => c.confidence ≤ a.confidence) := by
  constructor
  · calc (retainedRegions original_image heatmap).length
        = ((sortByConfDesc (filteredBoxes original_image heatmap)).take 10).length :=
          rfl
    _ ≤ 10 := List.length_take_le 10 _
  · exact List.Pairwise.sublist (List.take_sublist 10 _)
      (sortByConfDesc_pairwise (filteredBoxes original_image heatmap))

/-- A stable sort by descending confidence leaves a list of boxes of equal
confidence unchanged. -/
theorem sortByConfDesc_eq_self_of_const (l : List BBox)
    (h : ∀ a ∈ l, ∀ b ∈ l, a.confidence = b.confidence) :
    sortByConfDesc l = l := by
  induction l with
  | nil => rfl
  | cons b bs ih =>
    have hbs : sortByConfDesc bs = bs := by
      refine ih ?_
      intro a ha c hc
      exact h a (List.mem_cons.mpr (Or.inr ha)) c (List.mem_cons.mpr (Or.inr hc))
    show insertByConfDesc b (sortByConfDesc bs) = b :: bs
    rw [hbs]
    cases bs with
    | nil => rfl
    | cons c cs =>
      have hcb : c.confidence ≤ b.confidence :=
        le_of_eq (h c (List.mem_cons.mpr (Or.inr (List.mem_cons_self c cs)))
          b (List.mem_cons_self b (c :: cs)))
      simp [insertByConfDesc, if_pos hcb]

/-- Claim C1 (amended): the retained boxes are ordered by descending
confidence only, with no (top, left) tie-break; the sort being stable,
equal-confidence boxes keep the order in which the regions were detected
(raster order of connected-component labels). In particular when all
filtered boxes have equal confidence the retained list is the filtered list
capped at 10, unchanged. -/
theorem retainedRegions_ties_keep_detection_order (original_image : ImageArray)
    (heatmap : Grid)
    (h : ∀ a ∈ filteredBoxes original_image heatmap,
         ∀ b ∈ filteredBoxes original_image heatmap,
           a.confidence = b.confidence) :
    retainedRegions original_image heatmap =
      (filteredBoxes original_image heatmap).take 10 := by
  show (sortByConfDesc (filteredBoxes original_image heatmap)).take 10 =
    (filteredBoxes original_image heatmap).take 10
  rw [sortByConfDesc_eq_self_of_const _ h]

/-- A constant-intensity 40-row, 80-column grayscale image: all tissue. -/
def tieImage : ImageArray := .gray ⟨40, 80, fun _ _ => 100⟩

/-- A 4-row, 8-column heatmap with two 4-connected components of identical
activation 4/5: B = rows 0-1, columns 2-3, and A = column 5 rows 0-3 plus
row 3 columns 0-5. In raster order B is labeled before A, but the bounding box of A has (top, left) = (0, 0), preceding the (0, 20) of B after scaling. -/
def tieHeatmap : Grid :=
  ⟨4, 8, fun i j =>
    if (i = 0 || i = 1) && (j = 2 || j = 3) then 4 / 5
    else if j = 5 && i ≤ 3 then 4 / 5
    else if i = 3 && j ≤ 5 then 4 / 5
    else 0⟩

set_option maxRecDepth 100000 in
/-- Claim C1 counterexample: on the concrete input above the retained list is
[(20, 0, 30, 10), (0, 0, 50, 30)] with equal confidences 4/5, and it is not
sorted by (top, left): the (0, 0) of the second box strictly precedes the
(0, 20) of the first box. The code (grad_cam.py line 986) sorts by confidence only. -/
theorem retainedRegions_not_topleft_sorted :
    retainedRegions tieImage tieHeatmap =
        [⟨20, 0, 30, 10, 4 / 5⟩, ⟨0, 0, 50, 30, 4 / 5⟩] ∧
      ¬ (retainedRegions tieImage tieHeatmap).Pairwise
          (fun a b => a.y1 < b.y1 ∨ (a.y1 = b.y1 ∧ a.x1 ≤ b.x1)) := by
  with_unfolding_all decide

set_option maxRecDepth 100000 in
/-- Witness for the amended claim C1 on the concrete tie input: both filtered
boxes have confidence 4/5, so the retained list is the filtered list. -/
theorem retainedRegions_ties_witness :
    retainedRegions tieImage tieHeatmap =
      (filteredBoxes tieImage tieHeatmap).take 10 :=
  retainedRegions_ties_keep_detection_order tieImage tieHeatmap
    (by with_unfolding_all decide)

/-! ## The error path and the intensity fallback (grad_cam.py lines 926-940
and create_heatmap_overlay lines 146-156) -/

/-- np.min over a grid, seeded with the (0,0) entry. -/
def gridMin (g : Grid) : ℚ :=
  ((gridCoords g.h g.w).map (fun p => g.val p.1 p.2)).foldl min (g.val 0 0)

/-- np.max over a grid, seeded with the (0,0) entry. -/
def gridMax (g : Grid) : ℚ :=
  ((gridCoords g.h g.w).map (fun p => g.val p.1 p.2)).foldl max (g.val 0 0)

/-- create_heatmap_overlay lines 148-156: the overlay switches to the
intensity-based pseudo-heatmap (create_intensity_based_heatmap of the resized
original) exactly when the Grad-CAM heatmap it received has negligible
variation, `np.max(heatmap) - np.min(heatmap) < 0.01`. -/
def overlayUsesIntensityFallback (heatmap : Grid) : Bool :=
  decide (gridMax heatmap - gridMin heatmap < 1 / 100)

/-- The observable outcome of create_gradcam_visualization relevant to the
error path: either the error tuple (None images plus a message) or a
produced visualization, recording whether its overlay came from the
intensity fallback. -/
inductive GradcamVisOutcome
  | errorResult (msg : String)
  | visualization (usedIntensityFallback : Bool)
deriving DecidableEq

/-- Lines 927-940 of create_gradcam_visualization: when make_gradcam_heatmap
returns None (gradients unavailable) the function returns the error tuple at
line 932 and never reaches create_heatmap_overlay; otherwise the overlay is
built by create_heatmap_overlay, whose fallback condition is range < 0.01. -/
def gradcamVisualizationOutcome (heatmap : Option Grid) : GradcamVisOutcome :=
  match heatmap with
  | none => .errorResult
      "Heatmap generation returned None - gradient calculation may have failed"
  | some hm => .visualization (overlayUsesIntensityFallback hm)

/-- Claim C5 counterexample: when make_gradcam_heatmap returns None, the
caller create_gradcam_visualization aborts with the error tuple instead of
falling back to create_intensity_based_heatmap: the outcome is an
errorResult, not a visualization using the intensity fallback. -/
theorem gradcam_none_aborts :
    gradcamVisualizationOutcome none =
        .errorResult
          "Heatmap generation returned None - gradient calculation may have failed" ∧
      gradcamVisualizationOutcome none ≠ .visualization true ∧
      gradcamVisualizationOutcome none ≠ .visualization false :=
  ⟨rfl, by simp [gradcamVisualizationOutcome], by simp [gradcamVisualizationOutcome]⟩

/-- Claim C5 (amended): a None heatmap makes create_gradcam_visualization
return an error result; the intensity-based fallback is applied only inside
create_heatmap_overlay, when a produced heatmap has range below 0.01. -/
theorem gradcam_fallback_iff_flat :
    gradcamVisualizationOutcome none =
        .errorResult
          "Heatmap generation returned None - gradient calculation may have failed" ∧
      ∀ hm : Grid,
        (gradcamVisualizationOutcome (some hm) = .visualization true ↔
          gridMax hm - gridMin hm < 1 / 100) := by
  refine ⟨rfl, fun hm => ?_⟩
  simp only [gradcamVisualizationOutcome, GradcamVisOutcome.visualization.injEq,
    overlayUsesIntensityFallback]
  exact decide_eq_true_iff

/-! ## create_tissue_mask has no morphological step (claim C6) -/

/-- A 3x3 grayscale image of intensity 100 with a single dark pixel at the
center: tissue with a one-pixel hole. -/
def holeImage : ImageArray :=
  .gray ⟨3, 3, fun i j => if i = 1 && j = 1 then 0 else 100⟩

/-- Claim C6 counterexample: create_tissue_mask only binarizes; it applies
no morphological fill/closing, so the one-pixel hole at the center of
holeImage — all eight neighbours of which are tissue — remains False in the
mask, which a hole-filling step would have removed. -/
theorem create_tissue_mask_keeps_hole :
    (create_tissue_mask holeImage 15).val 1 1 = false ∧
      (create_tissue_mask holeImage 15).val 0 0 = true ∧
      (create_tissue_mask holeImage 15).val 0 1 = true ∧
      (create_tissue_mask holeImage 15).val 0 2 = true ∧
      (create_tissue_mask holeImage 15).val 1 0 = true ∧
      (create_tissue_mask holeImage 15).val 1 2 = true ∧
      (create_tissue_mask holeImage 15).val 2 0 = true ∧
      (create_tissue_mask holeImage 15).val 2 1 = true ∧
      (create_tissue_mask holeImage 15).val 2 2 = true := by
  with_unfolding_all decide

/-- Claim C6 (amended): create_tissue_mask binarizes the grayscale image at
the intensity threshold pointwise and applies no morphological fill/closing:
the mask value at a pixel depends only on the grayscale value of that pixel, so
no neighbourhood operation takes place. -/
theorem create_tissue_mask_pointwise (img img2 : ImageArray) (threshold : ℚ)
    (i j : Nat) (h : grayValue img i j = grayValue img2 i j) :
    (create_tissue_mask img threshold).val i j =
      (create_tissue_mask img2 threshold).val i j := by
  simp only [create_tissue_mask, h]

/-- Witness for the amended claim C6: two images agreeing at (0,0) only — one
all dark except (0,0), one all bright — get the same mask value there. -/
theorem create_tissue_mask_pointwise_witness :
    grayValue (.gray ⟨2, 2, fun i j => if i = 0 && j = 0 then 100 else 0⟩) 0 0 =
        grayValue (.gray ⟨2, 2, fun _ _ => 100⟩) 0 0 ∧
      (create_tissue_mask
          (.gray ⟨2, 2, fun i j => if i = 0 && j = 0 then 100 else 0⟩) 15).val 0 0 =
        (create_tissue_mask (.gray ⟨2, 2, fun _ _ => 100⟩) 15).val 0 0 :=
  ⟨by with_unfolding_all decide,
    create_tissue_mask_pointwise
      (.gray ⟨2, 2, fun i j => if i = 0 && j = 0 then 100 else 0⟩)
      (.gray ⟨2, 2, fun _ _ => 100⟩) 15 0 0 (by with_unfolding_all decide)⟩

/-! ## DuplicateDetector (backend/duplicate_detector.py)

Hashes: the SHA-256 file hash (hashlib, external) is a parameter; perceptual
hashes are 64-bit naturals.  get_perceptual_hash always emits a 16-character
hex string of a value below 2^64, so hamming_distance never takes its
length-mismatch (infinity) branch, and the hex round trip through
bin/zfill(64) compares exactly the 64 bits of the two values. -/

/-- duplicate_detector.get_perceptual_hash from the 8x8 grayscale thumbnail
onward (the PIL LANCZOS resize and grayscale conversion produce the input):
bit per pixel, 1 when above the mean, raster order, most significant first. -/
def get_perceptual_hash (pixels : List (List ℚ)) : Nat :=
  let flat := pixels.flatten
  let avg := flat.sum / (flat.length : ℚ)
  flat.foldl (fun acc v => 2 * acc + if v > avg then 1 else 0) 0

/-- duplicate_detector.hamming_distance on 64-bit hash values: the number of
bit positions where they differ. -/
def hamming_distance (h1 h2 : Nat) : Nat :=
  ((List.range 64).filter (fun i => h1.testBit i != h2.testBit i)).length

theorem hamming_distance_self (a : Nat) : hamming_distance a a = 0 := by
  simp [hamming_distance]

/-- The two in-memory stores of a DuplicateDetector, as insertion-ordered
association lists (Python dicts preserve insertion order): file hash to
filename and perceptual hash to filename. -/
structure DetectorState where
  uploaded_hashes : List (String × String)
  uploaded_phashes : List (Nat × String)
deriving DecidableEq

/-- Python dict assignment d[k] = v: update in place when the key exists,
append otherwise. -/
def dictInsert {κ : Type} [BEq κ] (d : List (κ × String)) (k : κ) (v : String) :
    List (κ × String) :=
  if d.any (fun p => p.1 == k) then
    d.map (fun p => if p.1 == k then (p.1, v) else p)
  else d ++ [(k, v)]

/-- duplicate_detector.check_duplicate (lines 87-140). `fileHash` models
hashlib.sha256(...).hexdigest() and `phash` models get_perceptual_hash
applied to the 8x8 grayscale thumbnail of the image; both are parameters of the
embedding. Returns the (is_duplicate, message) pair together with the
updated stores. The embedding is exception-free, so the broad except
branch of the source (return False without storing) has no counterpart. -/
def check_duplicate {Data Img : Type} (fileHash : Data → String)
    (phash : Img → Nat) (st : DetectorState) (image_data : Data) (image : Img)
    (filename : String) : (Bool × String) × DetectorState :=
  if st.uploaded_hashes.isEmpty && st.uploaded_phashes.isEmpty then
    ((false, ""),
      ⟨dictInsert st.uploaded_hashes (fileHash image_data) filename,
        dictInsert st.uploaded_phashes (phash image) filename⟩)
  else
    let file_hash := fileHash image_data
    match st.uploaded_hashes.find? (fun p => p.1 == file_hash) with
    | some prev =>
        ((true, "Exact duplicate detected: This image matches " ++ prev.2), st)
    | none =>
      let ph := phash image
      match st.uploaded_phashes.find? (fun p => hamming_distance ph p.1 ≤ 3) with
      | some prev =>
          ((true, "Duplicate detected: This image is very similar to " ++ prev.2),
            st)
      | none =>
          ((false, ""),
            ⟨dictInsert st.uploaded_hashes file_hash filename,
              dictInsert st.uploaded_phashes ph filename⟩)

/-- Claim C7: on a detector that has already stored at least one upload,
check_duplicate reports a duplicate exactly when the file hash matches a
stored file hash or the perceptual hash is within Hamming distance 3 of a
stored perceptual hash; and on a fresh detector the first upload is never
reported as a duplicate. -/
theorem check_duplicate_iff {Data Img : Type} (fileHash : Data → String)
    (phash : Img → Nat) (st : DetectorState) (image_data : Data) (image : Img)
    (filename : String)
    (hne : st.uploaded_hashes ≠ [] ∨ st.uploaded_phashes ≠ []) :
    ((check_duplicate fileHash phash st image_data image filename).1.1 = true ↔
        ((∃ p ∈ st.uploaded_hashes, p.1 = fileHash image_data) ∨
          ∃ p ∈ st.uploaded_phashes,
            hamming_distance (phash image) p.1 ≤ 3)) ∧
      (check_duplicate fileHash phash ⟨[], []⟩ image_data image filename).1.1 =
        false := by
  constructor
  · have hbranch : (st.uploaded_hashes.isEmpty && st.uploaded_phashes.isEmpty) = false := by
      rcases hne with h | h
      · simp [List.isEmpty_iff, h]
      · simp [List.isEmpty_iff, h]
    unfold check_duplicate
    rw [hbranch]
    simp only [Bool.false_eq_true, if_false]
    cases hfind : st.uploaded_hashes.find? (fun p => p.1 == fileHash image_data) with
    | some prev =>
      simp only
      constructor
      · intro _
        refine Or.inl ⟨prev, List.mem_of_find?_eq_some hfind, ?_⟩
        have := List.find?_some hfind
        exact eq_of_beq this
      · intro _; trivial
    | none =>
      cases hfind2 : st.uploaded_phashes.find?
          (fun p => hamming_distance (phash image) p.1 ≤ 3) with
      | some prev =>
        simp only
        constructor
        · intro _
          refine Or.inr ⟨prev, List.mem_of_find?_eq_some hfind2, ?_⟩
          have := List.find?_some hfind2
          exact of_decide_eq_true this
        · intro _; trivial
      | none =>
        simp only [Bool.false_eq_true, false_iff]
        rintro (⟨p, hp, hph⟩ | ⟨p, hp, hph⟩)
        · have := List.find?_eq_none.mp hfind p hp
          simp only [beq_iff_eq] at this
          exact this hph
        · have := List.find?_eq_none.mp hfind2 p hp
          simp only [decide_eq_true_eq] at this
          exact this hph
  · rfl

/-- Witness for claim C7: a detector holding one upload (hash "h0",
perceptual hash 0) flags a second upload with the same file hash. -/
theorem check_duplicate_iff_witness :
    (check_duplicate (fun _ : Nat => "h0") (fun _ : Nat => 0)
        ⟨[("h0", "f1")], [(0, "f1")]⟩ 1 1 "f2").1.1 = true := by
  have h := check_duplicate_iff (fun _ : Nat => "h0") (fun _ : Nat => 0)
    ⟨[("h0", "f1")], [(0, "f1")]⟩ 1 1 "f2" (Or.inl (by simp))
  exact h.1.mpr (Or.inl ⟨("h0", "f1"), by simp, rfl⟩)

/-- Claim C10: check_duplicate leaves the stores unchanged whenever it
reports a duplicate, and otherwise (no exception can occur in the
embedding) the stores grow by exactly the file hash and
perceptual hash of the checked image, each mapped to the filename of the upload. -/
theorem check_duplicate_frame {Data Img : Type} (fileHash : Data → String)
    (phash : Img → Nat) (st : DetectorState) (image_data : Data) (image : Img)
    (filename : String) :
    (check_duplicate fileHash phash st image_data image filename).2 =
      if (check_duplicate fileHash phash st image_data image filename).1.1
      then st
      else ⟨st.uploaded_hashes ++ [(fileHash image_data, filename)],
            st.uploaded_phashes ++ [(phash image, filename)]⟩ := by
  simp only [check_duplicate]
  by_cases hempty : st.uploaded_hashes.isEmpty && st.uploaded_phashes.isEmpty
  · rw [if_pos hempty]
    rw [Bool.and_eq_true] at hempty
    obtain ⟨h1, h2⟩ := hempty
    rw [List.isEmpty_iff.mp h1, List.isEmpty_iff.mp h2]
    rfl
  · rw [if_neg hempty]
    cases hfind : st.uploaded_hashes.find? (fun p => p.1 == fileHash image_data) with
    | some prev => rfl
    | none =>
      cases hfind2 : st.uploaded_phashes.find?
          (fun p => hamming_distance (phash image) p.1 ≤ 3) with
      | some prev => rfl
      | none =>
        simp only [Bool.false_eq_true, if_false]
        have hkey1 : (st.uploaded_hashes.any (fun p => p.1 == fileHash image_data)) = false := by
          rw [List.any_eq_false]
          intro p hp
          exact List.find?_eq_none.mp hfind p hp
        have hkey2 : (st.uploaded_phashes.any (fun p => p.1 == phash image)) = false := by
          rw [List.any_eq_false]
          intro p hp hbeq
          have habs := List.find?_eq_none.mp hfind2 p hp
          rw [decide_eq_true_eq] at habs
          apply habs
          rw [← eq_of_beq hbeq]
          rw [hamming_distance_self]
          exact Nat.zero_le 3
        simp only [dictInsert, hkey1, hkey2, Bool.false_eq_true, if_false]

/-! ## MammogramValidator (backend/mammogram_validator.py) -/

/-- The PIL image modes distinguished by the validator. -/
inductive PILMode
  | L | RGB | RGBA | LA | PA
deriving DecidableEq

/-- An uploaded PIL image: its mode and its numpy array. -/
structure PILImage where
  mode : PILMode
  arr : ImageArray

/-- The grayscale array used from check 4 on: `np.mean(img_array, axis=2)`
for color arrays, the array itself otherwise. -/
def grayGrid (arr : ImageArray) : Grid :=
  ⟨imageH arr, imageW arr, grayValue arr⟩

/-- Sum of all entries of a grid. -/
def gridSum (g : Grid) : ℚ :=
  ((gridCoords g.h g.w).map (fun p => g.val p.1 p.2)).sum

/-- Number of grid entries whose value satisfies the predicate. -/
def gridCount (g : Grid) (pred : ℚ → Bool) : Nat :=
  ((gridCoords g.h g.w).filter (fun p => pred (g.val p.1 p.2))).length

/-- np.mean of a 2D array. -/
def meanIntensity (g : Grid) : ℚ := gridSum g / ((g.h * g.w : Nat) : ℚ)

/-- The square of np.std of a 2D array: mean squared deviation. The source
compares std < 2, which for the nonnegative std is variance < 4. -/
def varIntensity (g : Grid) : ℚ :=
  ((gridCoords g.h g.w).map
      (fun p => (g.val p.1 p.2 - meanIntensity g) ^ 2)).sum / ((g.h * g.w : Nat) : ℚ)

namespace MammogramValidator

def MIN_WIDTH : Nat := 10
def MIN_HEIGHT : Nat := 10
/-- The maximum aspect bound of the source (width over height), 20.0. -/
def maxAspect : ℚ := 20
/-- The minimum aspect bound of the source, the float 0.05 modelled exactly. -/
def minAspect : ℚ := 1 / 20
def MAX_COLOR_VARIANCE : ℚ := 30
def MAX_EDGE_DENSITY : ℚ := 7 / 10

/-- np.gradient along an axis of length n: one-sided differences at the two
ends, central differences inside. -/
def gradAlong (n : Nat) (f : Nat → ℚ) (i : Nat) : ℚ :=
  if n ≤ 1 then 0
  else if i = 0 then f 1 - f 0
  else if i = n - 1 then f (n - 1) - f (n - 2)
  else (f (i + 1) - f (i - 1)) / 2

/-- The strong-edge test of check 6, `np.sqrt(gx**2 + gy**2) > 30` at one pixel,
stated equivalently on squares to stay in the rationals. -/
def edgeStrong (g : Grid) (i j : Nat) : Bool :=
  decide (gradAlong g.w (fun c => g.val i c) j ^ 2 +
      gradAlong g.h (fun r => g.val r j) i ^ 2 > 900)

/-- The edge density of check 6: fraction of strong-gradient pixels. -/
def edgeDensity (g : Grid) : ℚ :=
  (((gridCoords g.h g.w).filter (fun p => edgeStrong g p.1 p.2)).length : ℚ) /
    ((g.h * g.w : Nat) : ℚ)

/-- Check 4/7/8 quantities on the grayscale array. -/
def tissuePercentage (g : Grid) : ℚ :=
  ((gridCount g (fun v => decide (20 < v) && decide (v < 235)) : ℚ) /
      ((g.h * g.w : Nat) : ℚ)) * 100

/-- Check 8: the fraction of pixels in the extreme histogram bins [0,10) and
[246,256]; pixel values of uint8 images lie in [0,255], so every pixel falls
into some histogram bin. -/
def extremeFraction (g : Grid) : ℚ :=
  (gridCount g (fun v => decide (v < 10) || decide (246 ≤ v)) : ℚ) /
    ((g.h * g.w : Nat) : ℚ)

/-- Check 3, only for 3-channel arrays: mean absolute channel differences,
saturation, and skin-tone pixel percentage, rejected in that order. -/
def colorCheck : ImageArray → Option String
  | .gray _ => none
  | .color h w r g b =>
    let diffMean := fun (u v : Nat → Nat → ℚ) =>
      ((gridCoords h w).map (fun p => |u p.1 p.2 - v p.1 p.2|)).sum /
        ((h * w : Nat) : ℚ)
    let avg_color_diff := (diffMean r g + diffMean r b + diffMean g b) / 3
    if avg_color_diff > MAX_COLOR_VARIANCE then some "COLOR PHOTOGRAPH"
    else
      let avg_saturation :=
        ((gridCoords h w).map (fun p =>
            max (r p.1 p.2) (max (g p.1 p.2) (b p.1 p.2)) -
              min (r p.1 p.2) (min (g p.1 p.2) (b p.1 p.2)))).sum /
          ((h * w : Nat) : ℚ)
      if avg_saturation > 25 then some "COLORFUL IMAGE"
      else
        let skin_tone_percentage :=
          ((((gridCoords h w).filter (fun p =>
              decide (g p.1 p.2 < r p.1 p.2) && decide (b p.1 p.2 < g p.1 p.2) &&
                decide (100 < r p.1 p.2) && decide (r p.1 p.2 < 255))).length : ℚ) /
              ((w * h : Nat) : ℚ)) * 100
        if skin_tone_percentage > 15 then some "PHOTOGRAPH of a person"
        else none

/-- The aspect value of check 2: width / height, 0 for zero height. -/
def aspectValue (arr : ImageArray) : ℚ :=
  if 0 < imageH arr then (imageW arr : ℚ) / (imageH arr : ℚ) else 0

/-- MammogramValidator.validate (lines 31-202). The checks run in source
order; check 6 computes the edge density but the source only logs when it
exceeds MAX_EDGE_DENSITY ("but allowing anyway", lines 170-173) and never
rejects there. -/
def validate (image : PILImage) : Bool × String :=
  if image.mode = .RGBA ∨ image.mode = .LA ∨ image.mode = .PA then
    (false, "image has transparency")
  else if imageW image.arr < MIN_WIDTH ∨ imageH image.arr < MIN_HEIGHT then
    (false, "image resolution too low")
  else if aspectValue image.arr > maxAspect ∨ aspectValue image.arr < minAspect then
    (false, "invalid image aspect")
  else
    match colorCheck image.arr with
    | some msg => (false, msg)
    | none =>
      let gray := grayGrid image.arr
      if meanIntensity gray < 3 then (false, "image too dark")
      else if meanIntensity gray > 252 then (false, "image too bright")
      else if varIntensity gray < 4 then (false, "too little contrast")
      -- check 6: edge density only logged, never rejected (lines 170-173)
      else if tissuePercentage gray < 1 / 10 then (false, "insufficient tissue area")
      else if extremeFraction gray > 19 / 20 then
        (false, "invalid intensity distribution")
      else (true, "")

end MammogramValidator

/-- A 10x10 grayscale sawtooth image: pixel (i, j) has value 60 * (j % 5),
so every pixel has a horizontal gradient of magnitude at least 60 and the
edge density is 1, while every other validator check passes. -/
def sawtoothImage : PILImage :=
  ⟨.L, .gray ⟨10, 10, fun _ j => 60 * ((j % 5 : Nat) : ℚ)⟩⟩

set_option maxRecDepth 400000 in
/-- Claim C9 counterexample: the edge density of the sawtooth image is 1,
exceeding
MAX_EDGE_DENSITY = 0.7, yet validate accepts it: check 6 only logs
("but allowing anyway") and never rejects. -/
theorem validate_allows_high_edge_density :
    MammogramValidator.edgeDensity (grayGrid sawtoothImage.arr) >
        MammogramValidator.MAX_EDGE_DENSITY ∧
      MammogramValidator.validate sawtoothImage = (true, "") := by
  with_unfolding_all decide

/-- Claim C9 (amended): validate computes the edge density but never rejects
on it: any image passing the other checks is reported valid, with no bound
on its edge density. -/
theorem validate_ignores_edge_density (image : PILImage)
    (h0 : ¬(image.mode = .RGBA ∨ image.mode = .LA ∨ image.mode = .PA))
    (h1 : ¬(imageW image.arr < MammogramValidator.MIN_WIDTH ∨
        imageH image.arr < MammogramValidator.MIN_HEIGHT))
    (h2 : ¬(MammogramValidator.aspectValue image.arr > MammogramValidator.maxAspect ∨
        MammogramValidator.aspectValue image.arr < MammogramValidator.minAspect))
    (h3 : MammogramValidator.colorCheck image.arr = none)
    (h4 : ¬ meanIntensity (grayGrid image.arr) < 3)
    (h5 : ¬ meanIntensity (grayGrid image.arr) > 252)
    (h6 : ¬ varIntensity (grayGrid image.arr) < 4)
    (h7 : ¬ MammogramValidator.tissuePercentage (grayGrid image.arr) < 1 / 10)
    (h8 : ¬ MammogramValidator.extremeFraction (grayGrid image.arr) > 19 / 20) :
    MammogramValidator.validate image = (true, "") := by
  simp only [MammogramValidator.validate, h3]
  rw [if_neg h0, if_neg h1, if_neg h2, if_neg h4, if_neg h5, if_neg h6,
    if_neg h7, if_neg h8]

set_option maxRecDepth 400000 in
/-- Witness for the amended claim C9 at the sawtooth image: all non-edge
checks pass and validate returns valid. -/
theorem validate_ignores_edge_density_witness :
    MammogramValidator.validate sawtoothImage = (true, "") :=
  validate_ignores_edge_density sawtoothImage
    (by decide) (by with_unfolding_all decide) (by with_unfolding_all decide)
    (by with_unfolding_all decide) (by with_unfolding_all decide)
    (by with_unfolding_all decide) (by with_unfolding_all decide)
    (by with_unfolding_all decide) (by with_unfolding_all decide)

end BreastCancer
